import Mathlib

/-!
Verification development for the voice-assistant firmware core
(ESP32-S3 smart assistant, ESP-IDF C sources).

Each definition below is a shallow embedding of one function of the C
source, translated statement by statement.  Machine integers are modelled
as `Int`/`Nat`: a cast to `int16_t` is `wrap16` (two's-complement
wrap-around), C `>>` on a signed `int32_t` is arithmetic shift, i.e.
`Int.fdiv` by a power of two, and C `/` on `int32_t` is `Int.tdiv`
(truncation toward zero).  Global mutable state is passed explicitly;
FreeRTOS ring buffers are byte lists; callback invocations are collected
into result lists.  The two `float` expressions of the resampler
(`audio_resample_linear`) are modelled by exact rational arithmetic,
expressed over integers as quotient and remainder.
-/

namespace VoiceAssistant

/-- Two's-complement truncation of an integer to `int16_t`:
the effect of a C cast `(int16_t)x`. -/
def wrap16 (x : Int) : Int := (x + 32768) % 65536 - 32768

/-! ## Capture conversion (src/main/audio_controller.c)

`streaming_capture_task` has two compile-time variants selected by
`AEC_ENABLE`.  The source fixes `#define AEC_ENABLE 0`, so the compiled
(default) variant is the "non-AEC path: raw microphone with manual gain".
-/

/-- Sample conversion of the AEC build path
(src/main/audio_controller.c:185): `(int16_t)(i2s_buffer[i] >> 14)`,
an arithmetic right shift of the signed 32-bit sample. -/
def convert_sample_aec (s : Int) : Int := wrap16 (Int.fdiv s 16384)

/-- Constant `const int manual_gain = 10` (src/main/audio_controller.c:228);
applied unconditionally in the compiled (`AEC_ENABLE 0`) variant. -/
def manual_gain : Int := 10

/-- Sample conversion of the default (non-AEC) build path
(src/main/audio_controller.c:260-263):
`sample = (int32_t)(i2s_buffer[i] >> 14) * manual_gain` followed by
clipping to `32767` above and `-32768` below, then a cast to `int16_t`. -/
def convert_sample_default (s : Int) : Int :=
  let sample := Int.fdiv s 16384 * manual_gain
  let sample := if 32767 < sample then 32767 else sample
  let sample := if sample < -32768 then -32768 else sample
  wrap16 sample

/-! ## Capture chunking (src/main/audio_controller.c:226-291)

State of the non-AEC `streaming_capture_task` loop: the chunk
accumulator `pcm_chunk` with its write counter `samples_in_chunk`, and
the list of chunks passed to the sink `s_chunk_cb` so far (each chunk is
its list of 16-bit samples; a full chunk is 1600 samples = 3200 bytes).
-/

/-- Constant `const size_t chunk_samples = 1600` (100 ms at 16 kHz),
src/main/audio_controller.c:226. -/
def chunk_samples : Nat := 1600

structure CaptureState where
  samples_in_chunk : Nat
  pcm_chunk : List Int
  emitted : List (List Int)
  deriving Repr, DecidableEq

/-- One iteration of the per-sample conversion loop
(src/main/audio_controller.c:257-265): the sample is converted and
stored only while `samples_in_chunk < chunk_samples`; excess samples of
a read are discarded. -/
def streaming_capture_push_sample (st : CaptureState) (s : Int) : CaptureState :=
  if st.samples_in_chunk < chunk_samples then
    { st with pcm_chunk := st.pcm_chunk ++ [convert_sample_default s],
              samples_in_chunk := st.samples_in_chunk + 1 }
  else st

/-- One loop iteration of the capture task for a successful I2S read
delivering `frame` (its 32-bit samples): convert and accumulate each
sample, then, when the accumulator is full, invoke the sink with the
3200-byte chunk and reset (src/main/audio_controller.c:247-282). -/
def streaming_capture_read (st : CaptureState) (frame : List Int) : CaptureState :=
  let st := frame.foldl streaming_capture_push_sample st
  if chunk_samples ≤ st.samples_in_chunk then
    { samples_in_chunk := 0, pcm_chunk := [], emitted := st.emitted ++ [st.pcm_chunk] }
  else st

/-- The capture task run over a list of successful I2S reads, from task
start to the iteration at which it observes the cleared
`streaming_capture_task_handle` and leaves the loop. -/
def streaming_capture_run (frames : List (List Int)) : CaptureState :=
  frames.foldl streaming_capture_read ⟨0, [], []⟩

/-- All sink invocations of one capture session that is terminated by
`audio_stop_streaming_capture`.  After the loop exits, the task only
frees its buffers and deletes itself (src/main/audio_controller.c:285-291):
no further sink call is made, so the session's emissions are exactly the
in-loop emissions. -/
def capture_session_emissions (frames : List (List Int)) : List (List Int) :=
  (streaming_capture_run frames).emitted

/-! ## PCM ring buffer (src/main/pcm_buffer.c)

The FreeRTOS byte ring (`RINGBUF_TYPE_BYTEBUF`) is modelled as the list
of buffered bytes, oldest first.  `xRingbufferSend` with timeout 0
succeeds if and only if the payload fits into the free space, and is
all-or-nothing.
-/

structure PcmBuffer where
  inited : Bool
  bytesPerSample : Nat
  capacityBytes : Nat
  data : List Nat
  deriving Repr, DecidableEq

/-- Little-endian byte serialisation of one `int16_t` sample as stored
by `memcpy` of the sample array into the byte ring. -/
def int16LEBytes (s : Int) : List Nat :=
  let u := (s % 65536).toNat
  [u % 256, u / 256]

/-- Function `pcm_buffer_init` (src/main/pcm_buffer.c:18-80): rejects a zero
`bytes_per_sample` or `capacity_bytes`; otherwise creates an empty ring
of the requested byte capacity. -/
def pcm_buffer_init (bytesPerSample capacityBytes : Nat) : PcmBuffer :=
  if bytesPerSample = 0 ∨ capacityBytes = 0 then ⟨false, 0, 0, []⟩
  else ⟨true, bytesPerSample, capacityBytes, []⟩

/-- Function `pcm_buffer_push` (src/main/pcm_buffer.c:94-107): returns 0 on a
null ring, null data or zero count; otherwise sends
`sample_count * s_bytes_per_sample` bytes with timeout 0 (drop-on-full)
and returns `sample_count` on success, 0 on a full ring.  The bytes
written are the first `bytes_to_write` bytes of the sample array. -/
def pcm_buffer_push (buf : PcmBuffer) (samples : List Int) : PcmBuffer × Nat :=
  if buf.inited = false ∨ samples = [] then (buf, 0)
  else
    let bytes_to_write := samples.length * buf.bytesPerSample
    if buf.data.length + bytes_to_write ≤ buf.capacityBytes then
      ({ buf with
         data := buf.data ++ (samples.flatMap int16LEBytes).take bytes_to_write },
       samples.length)
    else (buf, 0)

/-- Function `pcm_buffer_pop` (src/main/pcm_buffer.c:109-124): receives up to
`max_bytes` buffered bytes (0 on a null ring, null dst or zero request).
`xRingbufferReceiveUpTo` may return fewer bytes at a wrap-around; the
byte accounting modelled here takes the available prefix. -/
def pcm_buffer_pop (buf : PcmBuffer) (maxBytes : Nat) : PcmBuffer × List Nat :=
  if buf.inited = false ∨ maxBytes = 0 then (buf, [])
  else
    let k := min maxBytes buf.data.length
    ({ buf with data := buf.data.drop k }, buf.data.take k)

/-- Function `pcm_buffer_reset` (src/main/pcm_buffer.c:82-92): drains all
buffered bytes. -/
def pcm_buffer_reset (buf : PcmBuffer) : PcmBuffer :=
  { buf with data := [] }

/-- Function `pcm_buffer_size` (src/main/pcm_buffer.c:126-133): capacity minus
current free size, guarded to 0 if the free size exceeds the capacity. -/
def pcm_buffer_size (buf : PcmBuffer) : Nat :=
  if buf.inited = false then 0
  else
    let free_bytes := buf.capacityBytes - buf.data.length
    if buf.capacityBytes < free_bytes then 0 else buf.capacityBytes - free_bytes

/-- The operations a client may perform on the ring after `init`. -/
inductive PcmOp
  | push (samples : List Int)
  | pop (maxBytes : Nat)
  | reset

def pcm_buffer_step (buf : PcmBuffer) : PcmOp → PcmBuffer
  | .push s => (pcm_buffer_push buf s).1
  | .pop n => (pcm_buffer_pop buf n).1
  | .reset => pcm_buffer_reset buf

/-- Any state the ring can be in: `pcm_buffer_init` followed by an
arbitrary sequence of push/pop/reset operations. -/
def pcm_buffer_run (bytesPerSample capacityBytes : Nat) (ops : List PcmOp) : PcmBuffer :=
  ops.foldl pcm_buffer_step (pcm_buffer_init bytesPerSample capacityBytes)

/-! ## Resampler (src/main/audio_aec.c, audio_resample_linear)

`audio_resample_linear(input, input_len, input_rate, output, output_rate)`.
The C source computes the fractional source position in `float`
(`input_pos = ((float)i * input_rate) / output_rate`); it is modelled
here exactly: the truncated position is `i * input_rate / output_rate`
in natural division, the fractional part is
`(i * input_rate % output_rate) / output_rate`, and the cast
`(int32_t)(frac * (sample1 - sample0))` truncates toward zero, i.e.
`Int.tdiv (rem * (sample1 - sample0)) output_rate`.
-/

def audio_resample_linear (input : List Int) (inputRate outputRate : Nat) : List Int :=
  if input.length = 0 ∨ inputRate = 0 ∨ outputRate = 0 then []
  else
    let N := input.length
    let outputLen := N * outputRate / inputRate
    (List.range outputLen).map fun i =>
      let inputIdx := i * inputRate / outputRate
      if N - 1 ≤ inputIdx then input.getD (N - 1) 0
      else
        let rem := i * inputRate % outputRate
        let sample0 := input.getD inputIdx 0
        let sample1 := input.getD (inputIdx + 1) 0
        wrap16 (sample0 + Int.tdiv ((rem : Int) * (sample1 - sample0)) (outputRate : Int))

/-! ## Playback volume (src/main/audio_playback.c:85-110) -/

/-- Function `audio_playback_set_volume` (src/main/audio_playback.c:85-92): the
argument is clamped to 100 and assigned to `s_volume`; the function is
`void` and cannot fail.  Result: the new value of `s_volume`. -/
def audio_playback_set_volume (stored volume : Nat) : Nat :=
  let volume := if 100 < volume then 100 else volume
  volume

/-- Function `apply_volume` (src/main/audio_playback.c:100-110): in-place scaling
of each 16-bit sample by `volume / 100` through an `int32_t`
intermediate, with C truncating division and a final `int16_t` cast;
skipped entirely at volume 100. -/
def apply_volume (samples : List Int) (volume : Nat) : List Int :=
  if volume = 100 then samples
  else samples.map fun s => wrap16 (Int.tdiv (s * (volume : Int)) 100)

/-! ## Buffered streaming playback (src/main/audio_playback.c:224-430)

One streaming session after a successful `audio_playback_stream_start`
(which sets `streaming_active := true`, `prebuffer_complete := false`
and spawns `buffered_playback_task`).  The ring length is in bytes; the
interleaving of producer (`audio_playback_stream_write`), controller
(`audio_playback_stream_end`) and the worker task is an arbitrary event
sequence.
-/

/-- Constant `STREAM_BUFFER_SIZE` (src/main/audio_playback.c:23): 96000 bytes. -/
def STREAM_BUFFER_SIZE : Nat := 96000

/-- Constant `PREBUFFER_BYTES` (src/main/audio_playback.c:25):
24000 * 2 * 500 / 1000 = 24000 bytes. -/
def PREBUFFER_BYTES : Nat := 24000

structure PlaybackState where
  streamingActive : Bool
  prebufferComplete : Bool
  ringLen : Nat
  workerWaiting : Bool
  i2sWritten : Nat
  deriving Repr, DecidableEq

/-- State right after `audio_playback_stream_start`
(src/main/audio_playback.c:329-330): streaming active, pre-buffer not
complete, empty ring, worker in its pre-buffer wait loop, nothing
written to I2S TX. -/
def playback_start_state : PlaybackState :=
  ⟨true, false, 0, true, 0⟩

inductive PlaybackEvent
  | write (n : Nat)
  | streamEnd
  | workerPoll

/-- One transition of the streaming-playback system.
`write n` is `audio_playback_stream_write` of `n` bytes
(src/main/audio_playback.c:361-391): rejected when streaming is not
active, skipped when empty; the blocking `xRingbufferSend` is modelled
as succeeding only when the payload fits (a producer still waiting for
space has not yet pushed, which is the same state).  After a successful
push, `s_prebuffer_complete` is set once the used byte count reaches
`PREBUFFER_BYTES`.
`streamEnd` is `audio_playback_stream_end` clearing `streaming_active`
(src/main/audio_playback.c:402).
`workerPoll` is one iteration of `buffered_playback_task`
(src/main/audio_playback.c:239-283): while in the pre-buffer wait loop
the worker sleeps until `prebuffer_complete` or streaming has ended;
afterwards each iteration receives up to 4096 buffered bytes and writes
exactly the received bytes to I2S TX. -/
def playback_step (st : PlaybackState) : PlaybackEvent → PlaybackState
  | .write n =>
    if st.streamingActive = false then st
    else if n = 0 then st
    else if st.ringLen + n ≤ STREAM_BUFFER_SIZE then
      let used := st.ringLen + n
      { st with ringLen := used,
                prebufferComplete := st.prebufferComplete || decide (PREBUFFER_BYTES ≤ used) }
    else st
  | .streamEnd => { st with streamingActive := false }
  | .workerPoll =>
    if st.workerWaiting then
      if st.streamingActive && !st.prebufferComplete then st
      else { st with workerWaiting := false }
    else
      let k := min st.ringLen 4096
      if k = 0 then st
      else { st with ringLen := st.ringLen - k, i2sWritten := st.i2sWritten + k }

/-- A playback session: any interleaving of producer, controller and
worker events from the post-`stream_start` state. -/
def playback_run (events : List PlaybackEvent) : PlaybackState :=
  events.foldl playback_step playback_start_state

/-! ## Transport client (src/main/websocket_client.c) -/

/-- The `esp_err_t` values returned by the client functions modelled
here.  `invalidState` is `ESP_ERR_INVALID_STATE` (used both for "not
initialised" and for "not connected"); `timeout` is `ESP_ERR_TIMEOUT`. -/
inductive EspErr
  | ok
  | invalidState
  | timeout
  deriving Repr, DecidableEq

structure WsState where
  inited : Bool
  connected : Bool
  deriving Repr, DecidableEq

structure SendOutcome where
  result : EspErr
  underlyingCalls : List Nat
  deriving Repr, DecidableEq

/-- Function `ws_client_send_audio` (src/main/websocket_client.c:236-267).
`underlyingRet` models the return value of
`esp_websocket_client_send_bin(s_client, data, len, pdMS_TO_TICKS(5000))`:
the number of bytes sent, or negative when the send cannot complete
within the 5-second window (or a network error occurs).
`underlyingCalls` records the lengths passed to the underlying send, so
that "nothing is transmitted" is visible in the model. -/
def ws_client_send_audio (st : WsState) (len : Nat) (underlyingRet : Int) : SendOutcome :=
  if st.inited = false then ⟨.invalidState, []⟩
  else if st.connected = false then ⟨.invalidState, []⟩
  else if underlyingRet < 0 then ⟨.timeout, [len]⟩
  else ⟨.ok, [len]⟩

/-! ## Session controller: half-duplex mute gate (src/main/audio_aec.c
concatenation, smart_assistant part, lines 550-582) -/

/-- Function `speech_event_handler` (smart assistant source lines 550-561): the
new value of `g_mic_muted_for_speech` is exactly `is_speaking`. -/
def speech_event_handler (isSpeaking : Bool) : Bool := isSpeaking

/-- Effects of one `streaming_chunk_handler` invocation: the lengths
passed to `ws_client_send_audio`, and any chunks re-queued for a later
send (the handler has no queue: a skipped chunk is simply dropped). -/
structure ChunkEffect where
  sends : List Nat
  requeued : List Nat
  deriving Repr, DecidableEq

/-- Function `streaming_chunk_handler` (smart assistant source lines 563-582):
when `g_mic_muted_for_speech` is set the chunk is skipped with a debug
log and the handler returns; otherwise a non-empty chunk is forwarded to
`ws_client_send_audio` (a failed send is only logged). -/
def streaming_chunk_handler (micMutedForSpeech : Bool) (pcmLen : Nat) : ChunkEffect :=
  if micMutedForSpeech then ⟨[], []⟩
  else if 0 < pcmLen then ⟨[pcmLen], []⟩
  else ⟨[], []⟩

/-! ## Persistent session identity (src/unnamed/part_009, proxy_client) -/

/-- Result of `nvs_open` on namespace "proxy_client" as seen by
`load_or_create_session_id`; `notFound` is `ESP_ERR_NVS_NOT_FOUND`
returned by `nvs_get_str` when the key is absent. -/
inductive NvsErr
  | ok
  | notFound
  | openFail
  deriving Repr, DecidableEq

/-- Model of `snprintf(.., "%08lx", (unsigned long)esp_random())`: lowercase hex
of the random 32-bit value, zero-padded to width 8. -/
def hex8 (r : Nat) : String :=
  let ds := Nat.toDigits 16 (r % 4294967296)
  ⟨List.replicate (8 - ds.length) '0' ++ ds⟩

/-- The generated identifier `"esp32-" || hex(random32)`
(src/unnamed/part_009:93). -/
def genSessionId (rand32 : Nat) : String := "esp32-" ++ hex8 rand32

structure SessionLoad where
  sessionId : String
  store : Option String
  sessionIdLoaded : Bool
  deriving Repr, DecidableEq

/-- Function `load_or_create_session_id` (src/unnamed/part_009:70-112).
`openErr` is the result of `nvs_open`; `store` is the value under key
"session_id" in namespace "proxy_client" (the only key the function
touches) before the call, and the returned `store` is its value after
the call.  The translation keeps the C control flow: on open failure the
code jumps to `generate_new` with `err ≠ ESP_OK`; on a successful open,
`err` is overwritten by the `nvs_get_str` result, a stored value is
returned directly (`nvs_get_str` reports its length including the
terminator, hence `> 0`), and otherwise the code falls through to
`generate_new` where the save of the fresh identifier is guarded by
`if (err == ESP_OK)` — this `err` being the `nvs_get_str` error. -/
def load_or_create_session_id (openErr : NvsErr) (store : Option String)
    (rand32 : Nat) : SessionLoad :=
  if openErr ≠ .ok then
    { sessionId := genSessionId rand32, store := store, sessionIdLoaded := true }
  else
    match store with
    | some s => { sessionId := s, store := store, sessionIdLoaded := true }
    | none =>
      let err := NvsErr.notFound
      let id := genSessionId rand32
      let store := if err = .ok then some id else store
      { sessionId := id, store := store, sessionIdLoaded := true }

structure ProxyConfig where
  sessionId : String
  sessionIdLoaded : Bool
  deriving Repr, DecidableEq

/-- Function `proxy_get_session_id` (src/unnamed/part_009:183-189): loads (or
creates) the identifier on first use, then returns the cached value.
Result: the returned identifier, the updated in-process config and the
updated persistent store. -/
def proxy_get_session_id (cfg : ProxyConfig) (openErr : NvsErr)
    (store : Option String) (rand32 : Nat) : String × ProxyConfig × Option String :=
  if cfg.sessionIdLoaded then (cfg.sessionId, cfg, store)
  else
    let r := load_or_create_session_id openErr store rand32
    (r.sessionId, ⟨r.sessionId, true⟩, r.store)

/-- The in-process config at boot (src/unnamed/part_009:37-42):
`session_id` empty, `session_id_loaded` false. -/
def proxy_boot_config : ProxyConfig := ⟨"", false⟩

/-! ## Helper lemmas -/

/-- A value already in the `int16_t` range is unchanged by the cast. -/
theorem wrap16_eq_self {x : Int} (h1 : -32768 ≤ x) (h2 : x ≤ 32767) :
    wrap16 x = x := by
  unfold wrap16
  omega

/-- C truncating division expressed through Euclidean division, for a
positive divisor. -/
theorem tdiv_eq_cases (x d : Int) (hd : 0 ≤ d) :
    Int.tdiv x d = if 0 ≤ x then x / d else -((-x) / d) := by
  split
  case isTrue h => exact Int.tdiv_eq_ediv h hd
  case isFalse h =>
    have hx : Int.tdiv x d = -Int.tdiv (-x) d := by
      rw [← Int.neg_tdiv, neg_neg]
    rw [hx, Int.tdiv_eq_ediv (by omega) hd]

/-- Reading every position of a list in order reproduces the list. -/
theorem getD_range_map (l : List Int) :
    (List.range l.length).map (fun i => l.getD i 0) = l := by
  apply List.ext_getElem
  · simp
  · intro n h1 h2
    simp only [List.getElem_map, List.getElem_range]
    exact List.getD_eq_getElem l 0 h2

/-- Each 16-bit sample serialises to exactly two bytes. -/
theorem flatMap_int16LEBytes_length (samples : List Int) :
    (samples.flatMap int16LEBytes).length = 2 * samples.length := by
  induction samples with
  | nil => simp
  | cons s rest ih => simp [int16LEBytes, ih]; ring

/-! ## Claim theorems -/

/-- C1: Half-duplex mute gate.  After a `speech_start` event sets
`mic_muted_for_speech`, `streaming_chunk_handler` invokes
`ws_client_send_audio` for none of the capture chunks delivered while
the flag is true — whatever their lengths — and no chunk is re-queued:
each gated chunk is dropped silently. -/
theorem C1_half_duplex_mute_gate (chunkLens : List Nat) :
    ((chunkLens.map fun len =>
        (streaming_chunk_handler (speech_event_handler true) len).sends).flatten = []
      ∧ (chunkLens.map fun len =>
        (streaming_chunk_handler (speech_event_handler true) len).requeued).flatten = []) := by
  induction chunkLens with
  | nil => exact ⟨rfl, rfl⟩
  | cons l rest ih =>
    simpa [streaming_chunk_handler, speech_event_handler] using ih

/-- C2: the claim says the first call stores the generated
`"esp32-" || hex(random32)` identifier under the `session_id` key and
that a later cold start returns the same identifier.  In the code the
save at src/unnamed/part_009:97-110 is guarded by `if (err == ESP_OK)`,
but at that point `err` holds the error of the failed `nvs_get_str`
(the comment "NVS handle is still open" notwithstanding), so on a first
boot (open succeeds, key absent) nothing is written: the store is left
empty and the next cold start generates a different identifier.  Loading
an already-stored value does work, isolating the bug to the save path. -/
theorem C2_session_id_first_boot_not_saved :
    (load_or_create_session_id .ok none 0).sessionId = "esp32-00000000"
      ∧ (load_or_create_session_id .ok none 0).store = none
      ∧ (proxy_get_session_id proxy_boot_config .ok none 0).1 = "esp32-00000000"
      ∧ (load_or_create_session_id .ok
          (load_or_create_session_id .ok none 0).store 1).sessionId
          ≠ (load_or_create_session_id .ok none 0).sessionId
      ∧ (∀ s : String, (load_or_create_session_id .ok (some s) 0).sessionId = s) := by
  refine ⟨by decide, by decide, by decide, by decide, fun s => rfl⟩

/-- C3 counterexample: the claim states the conversion is
`(int16_t)(s32 >> 14)` with the 10x gain path off by default and, when
enabled, saturation to plus or minus 32767.  In the compiled default
build (`AEC_ENABLE 0`) the gain path is active: the sample 16384
converts to 10, not to `(int16_t)(16384 >> 14) = 1`; and the negative
saturation bound is -32768, not -32767, as the sample `-2^31` shows. -/
theorem C3_counterexample_gain_on_by_default :
    convert_sample_default 16384 = 10
      ∧ convert_sample_aec 16384 = 1
      ∧ (10 : Int) ≠ 1
      ∧ convert_sample_default (-(2 ^ 31)) = -32768
      ∧ (-32768 : Int) ≠ -32767 := by
  exact ⟨by decide, by decide, by decide, by decide, by decide⟩

/-- C3 amended: every 32-bit sample is converted by an arithmetic
(sign-preserving) right shift `s32 >> 14`; in the default (non-AEC)
build the 10x gain path is enabled and the result saturates to 32767
above and -32768 below, while the AEC build uses the plain
`(int16_t)(s32 >> 14)` conversion. -/
theorem C3_amended_conversion (s : Int) :
    convert_sample_default s
        = max (-32768) (min 32767 (Int.fdiv s 16384 * manual_gain))
      ∧ (0 ≤ s → 0 ≤ Int.fdiv s 16384)
      ∧ (s < 0 → Int.fdiv s 16384 < 0)
      ∧ convert_sample_aec s = wrap16 (Int.fdiv s 16384) := by
  rw [Int.fdiv_eq_ediv s (by omega)]
  refine ⟨?_, fun h => Int.ediv_nonneg h (by omega), fun h => ?_, ?_⟩
  · unfold convert_sample_default manual_gain wrap16
    rw [Int.fdiv_eq_ediv s (by omega)]
    simp only [Int.max_def, Int.min_def]
    split_ifs <;> omega
  · omega
  · rw [convert_sample_aec, Int.fdiv_eq_ediv s (by omega)]

/-- C3 witness: the amended conversion at concrete samples — the
clamped gain formula at 16384, sign preservation of the shift at 16384
and at -5, and the plain AEC conversion at -5. -/
theorem C3_amended_conversion_witness :
    convert_sample_default 16384
        = max (-32768) (min 32767 (Int.fdiv 16384 16384 * manual_gain))
      ∧ 0 ≤ Int.fdiv 16384 16384
      ∧ Int.fdiv (-5) 16384 < 0
      ∧ convert_sample_aec (-5) = wrap16 (Int.fdiv (-5) 16384) :=
  ⟨(C3_amended_conversion 16384).1,
   (C3_amended_conversion 16384).2.1 (by decide),
   (C3_amended_conversion (-5)).2.2.1 (by decide),
   (C3_amended_conversion (-5)).2.2.2⟩

/-- C6: transport send errors.  `ws_client_send_audio` with `len = 0`
is permitted and succeeds (the underlying send is invoked with the
empty end-of-turn frame); a send attempted while the client is
disconnected fails with the not-connected error
(`ESP_ERR_INVALID_STATE`) and nothing reaches the underlying transport;
a send whose underlying transmission cannot complete within the
5-second window fails with `ESP_ERR_TIMEOUT`. -/
theorem C6_transport_send_errors :
    (∀ r : Int, 0 ≤ r →
        ws_client_send_audio ⟨true, true⟩ 0 r = ⟨.ok, [0]⟩)
      ∧ (∀ (len : Nat) (r : Int),
        ws_client_send_audio ⟨true, false⟩ len r = ⟨.invalidState, []⟩)
      ∧ (∀ (len : Nat) (r : Int), r < 0 →
        ws_client_send_audio ⟨true, true⟩ len r = ⟨.timeout, [len]⟩) := by
  refine ⟨fun r hr => ?_, fun len r => rfl, fun len r hr => ?_⟩
  · simp only [ws_client_send_audio, if_neg (by omega : ¬r < 0)]
    rfl
  · simp only [ws_client_send_audio, if_pos hr]
    rfl

/-- C6 witness: the three clauses at concrete inputs — a successful
empty send, a rejected send while disconnected, and a timed-out send. -/
theorem C6_transport_send_errors_witness :
    ws_client_send_audio ⟨true, true⟩ 0 0 = ⟨.ok, [0]⟩
      ∧ ws_client_send_audio ⟨true, false⟩ 3200 7 = ⟨.invalidState, []⟩
      ∧ ws_client_send_audio ⟨true, true⟩ 3200 (-1) = ⟨.timeout, [3200]⟩ :=
  ⟨C6_transport_send_errors.1 0 (by decide),
   C6_transport_send_errors.2.1 3200 7,
   C6_transport_send_errors.2.2 3200 (-1) (by decide)⟩

/-- C9 counterexample: the claim states a `set_volume` call with a
volume above 100 fails with `InvalidArgument` and leaves the stored
volume unchanged.  The code instead clamps the argument to 100 and
stores it: with stored volume 70, `set_volume(150)` stores 100. -/
theorem C9_counterexample_volume_clamped :
    audio_playback_set_volume 70 150 = 100 ∧ (100 : Nat) ≠ 70 :=
  ⟨by decide, by decide⟩

/-- C9 amended: `set_volume` never fails; an argument above 100 is
clamped to 100 and stored, an argument in 0..100 is stored as given.
Valid volumes are applied in-place by multiplying each 16-bit sample by
`v/100` through a 32-bit intermediate with C truncating division (the
result always fits `int16_t`, so the final cast is value-preserving);
volume 100 leaves the samples untouched. -/
theorem C9_amended_volume :
    (∀ stored v : Nat, 100 < v → audio_playback_set_volume stored v = 100)
      ∧ (∀ stored v : Nat, v ≤ 100 → audio_playback_set_volume stored v = v)
      ∧ (∀ samples : List Int, apply_volume samples 100 = samples)
      ∧ (∀ (samples : List Int) (v : Nat), v < 100 →
          (∀ s ∈ samples, -32768 ≤ s ∧ s ≤ 32767) →
          apply_volume samples v
            = samples.map fun s => Int.tdiv (s * (v : Int)) 100) := by
  refine ⟨fun stored v hv => ?_, fun stored v hv => ?_,
    fun samples => by simp [apply_volume], fun samples v hv hb => ?_⟩
  · simp [audio_playback_set_volume, if_pos hv]
  · simp [audio_playback_set_volume, if_neg (by omega : ¬100 < v)]
  · unfold apply_volume
    rw [if_neg (by omega : ¬v = 100)]
    apply List.map_congr_left
    intro s hs
    rcases hb s hs with ⟨h1, h2⟩
    have hv' : (v : Int) ≤ 99 := by exact_mod_cast Nat.le_of_lt_succ hv
    have hv0 : (0 : Int) ≤ (v : Int) := by positivity
    have hub : s * (v : Int) ≤ 32767 * 99 := by nlinarith
    have hlb : -32768 * 99 ≤ s * (v : Int) := by nlinarith
    apply wrap16_eq_self
    · rw [tdiv_eq_cases _ _ (by omega)]
      split <;> omega
    · rw [tdiv_eq_cases _ _ (by omega)]
      split <;> omega

/-- C9 witness: the amended clauses at concrete inputs — clamping of
150, storing of 50, identity at volume 100, and halving of the sample
32000 at volume 50 (yielding 16000). -/
theorem C9_amended_volume_witness :
    audio_playback_set_volume 70 150 = 100
      ∧ audio_playback_set_volume 70 50 = 50
      ∧ apply_volume [32000] 100 = [32000]
      ∧ apply_volume [32000] 50 = [16000] := by
  refine ⟨C9_amended_volume.1 70 150 (by decide),
    C9_amended_volume.2.1 70 50 (by decide),
    C9_amended_volume.2.2.1 [32000],
    ?_⟩
  have h := C9_amended_volume.2.2.2 [32000] 50 (by decide) (by decide)
  rw [h]
  decide

/-! ## Capture-task invariant (for C4) -/

/-- Loop invariant of `streaming_capture_task`: the write counter
matches the accumulator length, the accumulator never exceeds a full
chunk, and every chunk handed to the sink so far was exactly full. -/
def CapInv (st : CaptureState) : Prop :=
  st.samples_in_chunk = st.pcm_chunk.length
    ∧ st.samples_in_chunk ≤ chunk_samples
    ∧ ∀ c ∈ st.emitted, c.length = chunk_samples

theorem capture_push_sample_inv (st : CaptureState) (s : Int) (h : CapInv st) :
    CapInv (streaming_capture_push_sample st s)
      ∧ (streaming_capture_push_sample st s).emitted = st.emitted := by
  obtain ⟨h1, h2, h3⟩ := h
  unfold streaming_capture_push_sample
  split
  · next hlt =>
    refine ⟨⟨?_, ?_, h3⟩, rfl⟩
    · show st.samples_in_chunk + 1 = (st.pcm_chunk ++ [convert_sample_default s]).length
      simp [h1]
    · show st.samples_in_chunk + 1 ≤ chunk_samples
      omega
  · exact ⟨⟨h1, h2, h3⟩, rfl⟩

theorem capture_foldl_inv (frame : List Int) :
    ∀ st : CaptureState, CapInv st →
      CapInv (frame.foldl streaming_capture_push_sample st)
        ∧ (frame.foldl streaming_capture_push_sample st).emitted = st.emitted := by
  induction frame with
  | nil => exact fun st h => ⟨h, rfl⟩
  | cons s rest ih =>
    intro st h
    obtain ⟨h', he⟩ := capture_push_sample_inv st s h
    obtain ⟨h'', he'⟩ := ih _ h'
    exact ⟨h'', by rw [List.foldl_cons, he', he]⟩

theorem capture_read_inv (st : CaptureState) (frame : List Int) (h : CapInv st) :
    CapInv (streaming_capture_read st frame) := by
  obtain ⟨h', _⟩ := capture_foldl_inv frame st h
  obtain ⟨h1, h2, h3⟩ := h'
  simp only [streaming_capture_read]
  split
  · next hfull =>
    refine ⟨rfl, by simp, ?_⟩
    intro c hc
    rcases List.mem_append.mp hc with hmem | hlast
    · exact h3 c hmem
    · rw [List.mem_singleton.mp hlast]
      omega
  · exact ⟨h1, h2, h3⟩

theorem capture_run_inv (frames : List (List Int)) :
    ∀ st : CaptureState, CapInv st →
      CapInv (frames.foldl streaming_capture_read st) := by
  induction frames with
  | nil => exact fun st h => h
  | cons f rest ih =>
    intro st h
    exact ih _ (capture_read_inv st f h)

/-- C4 counterexample: the claim says that on explicit stop the capture
task emits a single final empty chunk `sink(null, 0)` before exiting.
In a session consisting of one 1-sample I2S read followed by
`audio_stop_streaming_capture`, the sink is never invoked at all — in
particular no empty end-of-stream marker is emitted (the task only
frees its buffers and deletes itself after leaving the loop). -/
theorem C4_counterexample_no_final_empty_chunk :
    capture_session_emissions [[0]] = []
      ∧ (capture_session_emissions [[0]]).getLast? ≠ some [] := by
  exact ⟨by decide, by decide⟩

/-- C4 amended: for any contiguous capture session — any sequence of
successful I2S reads followed by an explicit stop — every sink
invocation carries a chunk of exactly 1600 samples (3200 bytes), and the
task exits without emitting any final empty end-of-stream marker (the
sink is not called with length 0). -/
theorem C4_amended_capture_chunking (frames : List (List Int)) :
    ((capture_session_emissions frames).all
      fun c => c.length == chunk_samples) = true := by
  rw [List.all_eq_true]
  intro c hc
  rw [beq_iff_eq]
  have h := capture_run_inv frames ⟨0, [], []⟩ ⟨rfl, by simp [chunk_samples], by simp⟩
  exact h.2.2 c hc

/-! ## PCM-ring invariant (for C8) -/

/-- Reachable-state invariant of the byte ring: the stored bytes never
exceed the capacity, and an uninitialised ring stores nothing. -/
def PcmInv (buf : PcmBuffer) : Prop :=
  buf.data.length ≤ buf.capacityBytes
    ∧ (buf.inited = false → buf.data = [])

theorem pcm_step_inv (buf : PcmBuffer) (op : PcmOp) (h : PcmInv buf) :
    PcmInv (pcm_buffer_step buf op) := by
  obtain ⟨h1, h2⟩ := h
  cases op with
  | push s =>
    simp only [pcm_buffer_step, pcm_buffer_push]
    split
    · exact ⟨h1, h2⟩
    · next hg =>
      split
      · next hfit =>
        refine ⟨?_, fun hf => absurd (Or.inl hf) hg⟩
        show (buf.data ++ _).length ≤ buf.capacityBytes
        simp only [List.length_append, List.length_take]
        omega
      · exact ⟨h1, h2⟩
  | pop n =>
    simp only [pcm_buffer_step, pcm_buffer_pop]
    split
    · exact ⟨h1, h2⟩
    · next hg =>
      refine ⟨?_, fun hf => ?_⟩
      · show (buf.data.drop _).length ≤ buf.capacityBytes
        simp only [List.length_drop]
        omega
      · show buf.data.drop _ = []
        simp [h2 hf]
  | reset =>
    exact ⟨by simp [pcm_buffer_step, pcm_buffer_reset], fun _ => rfl⟩

theorem pcm_run_inv (ops : List PcmOp) :
    ∀ buf : PcmBuffer, PcmInv buf → PcmInv (ops.foldl pcm_buffer_step buf) := by
  induction ops with
  | nil => exact fun buf h => h
  | cons op rest ih => exact fun buf h => ih _ (pcm_step_inv buf op h)

theorem pcm_init_inv (bps cap : Nat) : PcmInv (pcm_buffer_init bps cap) := by
  unfold pcm_buffer_init PcmInv
  split <;> simp

/-- C8: ring drop-on-full atomicity.  A non-blocking push whose byte
payload exceeds the free space enqueues nothing: the ring (length and
stored contents) is unchanged and 0 is returned.  In every state
reachable from `pcm_buffer_init` by pushes, pops and resets, the stored
byte count never exceeds the capacity (and is a natural number, hence
nonnegative), and `pcm_buffer_size` reports exactly that count. -/
theorem C8_ring_drop_on_full :
    (∀ (buf : PcmBuffer) (samples : List Int),
        buf.capacityBytes - buf.data.length < samples.length * buf.bytesPerSample →
        pcm_buffer_push buf samples = (buf, 0))
      ∧ (∀ (bps cap : Nat) (ops : List PcmOp),
        (pcm_buffer_run bps cap ops).data.length
            ≤ (pcm_buffer_run bps cap ops).capacityBytes
          ∧ pcm_buffer_size (pcm_buffer_run bps cap ops)
            = (pcm_buffer_run bps cap ops).data.length) := by
  constructor
  · intro buf samples hover
    simp only [pcm_buffer_push]
    split
    · rfl
    · rw [if_neg (by omega)]
  · intro bps cap ops
    unfold pcm_buffer_run
    obtain ⟨h1, h2⟩ := pcm_run_inv ops _ (pcm_init_inv bps cap)
    refine ⟨h1, ?_⟩
    simp only [pcm_buffer_size]
    split
    · next hf => simp [h2 hf]
    · split <;> omega

/-- C8 witness: a full ring of capacity 4 holding bytes `[1,2,3,4]`
rejects a 2-byte push unchanged with result 0, and the size of the ring
built by `init 2 4` with no operations is within its capacity. -/
theorem C8_ring_drop_on_full_witness :
    pcm_buffer_push ⟨true, 2, 4, [1, 2, 3, 4]⟩ [5] = (⟨true, 2, 4, [1, 2, 3, 4]⟩, 0)
      ∧ (pcm_buffer_run 2 4 []).data.length ≤ (pcm_buffer_run 2 4 []).capacityBytes :=
  ⟨C8_ring_drop_on_full.1 ⟨true, 2, 4, [1, 2, 3, 4]⟩ [5] (by decide),
   (C8_ring_drop_on_full.2 2 4 []).1⟩

/-- C10 (implicit): `pcm_buffer_push` is all-or-nothing.  With the
configured 2-byte samples, every push of `k` samples either enqueues
exactly the `2·k`-byte serialisation of all `k` samples at the tail and
returns `k` — the count in samples, not bytes — or enqueues nothing,
leaves the ring unchanged and returns 0; a partial enqueue never
occurs. -/
theorem C10_push_all_or_nothing (buf : PcmBuffer) (samples : List Int)
    (hbps : buf.bytesPerSample = 2) :
    ((pcm_buffer_push buf samples).2 = samples.length
        ∧ (pcm_buffer_push buf samples).1.data
          = buf.data ++ samples.flatMap int16LEBytes
        ∧ (pcm_buffer_push buf samples).1.data.length
          = buf.data.length + 2 * samples.length)
      ∨ ((pcm_buffer_push buf samples).2 = 0
        ∧ (pcm_buffer_push buf samples).1 = buf) := by
  simp only [pcm_buffer_push]
  split
  · exact Or.inr ⟨rfl, rfl⟩
  · split
    · next hfit =>
      left
      have hlen : (samples.flatMap int16LEBytes).length
          = samples.length * buf.bytesPerSample := by
        rw [flatMap_int16LEBytes_length, hbps]; ring
      refine ⟨rfl, ?_, ?_⟩
      · show buf.data ++ _ = buf.data ++ _
        rw [← hlen, List.take_length]
      · show (buf.data ++ _).length = _
        rw [← hlen, List.take_length, List.length_append,
          flatMap_int16LEBytes_length]
    · exact Or.inr ⟨rfl, rfl⟩

/-- C10 witness: pushing the single sample 3 into an empty initialised
ring of capacity 10 enqueues its two little-endian bytes `[3, 0]` and
returns 1 (one sample, not two bytes). -/
theorem C10_push_all_or_nothing_witness :
    (pcm_buffer_push ⟨true, 2, 10, []⟩ [3]).2 = 1
      ∧ (pcm_buffer_push ⟨true, 2, 10, []⟩ [3]).1.data = [3, 0] := by
  have h := C10_push_all_or_nothing ⟨true, 2, 10, []⟩ [3] rfl
  rcases h with ⟨h1, h2, _⟩ | ⟨h1, _⟩
  · exact ⟨h1, by rw [h2]; decide⟩
  · exact absurd h1 (by decide)

/-! ## Playback-session invariant (for C5) -/

/-- Invariant of the streaming-playback session: the worker has left
its pre-buffer wait loop only after the pre-buffer completed or
streaming ended, and bytes have reached I2S TX only after the worker
left the wait loop. -/
def PbInv (s : PlaybackState) : Prop :=
  (s.workerWaiting = false → s.prebufferComplete = true ∨ s.streamingActive = false)
    ∧ (0 < s.i2sWritten → s.workerWaiting = false)

theorem playback_step_inv (s : PlaybackState) (e : PlaybackEvent) (h : PbInv s) :
    PbInv (playback_step s e) := by
  obtain ⟨h1, h2⟩ := h
  cases e with
  | write n =>
    simp only [playback_step]
    split
    · exact ⟨h1, h2⟩
    · split
      · exact ⟨h1, h2⟩
      · split
        · refine ⟨fun hw => ?_, h2⟩
          rcases h1 hw with hp | hs
          · left
            show (s.prebufferComplete || _) = true
            rw [hp, Bool.true_or]
          · exact Or.inr hs
        · exact ⟨h1, h2⟩
  | streamEnd =>
    exact ⟨fun _ => Or.inr rfl, h2⟩
  | workerPoll =>
    simp only [playback_step]
    split
    · next hw =>
      split
      · exact ⟨h1, h2⟩
      · next hcond =>
        refine ⟨fun _ => ?_, fun _ => rfl⟩
        by_cases hp : s.prebufferComplete = true
        · exact Or.inl hp
        · right
          show s.streamingActive = false
          cases hsa : s.streamingActive
          · rfl
          · exact absurd (by rw [hsa, Bool.eq_false_iff.mpr hp]; rfl) hcond
    · next hnw =>
      have hw : s.workerWaiting = false := Bool.eq_false_iff.mpr hnw
      split
      · exact ⟨h1, h2⟩
      · exact ⟨fun _ => h1 hw, fun _ => hw⟩

theorem playback_run_inv (events : List PlaybackEvent) :
    ∀ s : PlaybackState, PbInv s → PbInv (events.foldl playback_step s) := by
  induction events with
  | nil => exact fun s h => h
  | cons e rest ih => exact fun s h => ih _ (playback_step_inv s e h)

/-- C5: playback pre-buffer.  In any interleaving of stream writes, the
stream-end signal and worker iterations after `stream_start`, the
worker has written bytes to I2S TX only if the ring has at some point
contained at least `PREBUFFER_BYTES` (24000) bytes — the condition that
sets `s_prebuffer_complete` — or `streaming_active` has been cleared.
Moreover a waiting worker whose streaming flag was cleared leaves the
wait loop at its next poll, and a non-waiting worker drains whatever is
present: each poll writes `min(ring length, 4096)` bytes to I2S TX. -/
theorem C5_playback_prebuffer_gate :
    (∀ events : List PlaybackEvent,
        0 < (playback_run events).i2sWritten →
        (playback_run events).prebufferComplete = true
          ∨ (playback_run events).streamingActive = false)
      ∧ (∀ s : PlaybackState, s.workerWaiting = true → s.streamingActive = false →
        (playback_step s .workerPoll).workerWaiting = false)
      ∧ (∀ s : PlaybackState, s.workerWaiting = false →
        (playback_step s .workerPoll).i2sWritten
          = s.i2sWritten + min s.ringLen 4096) := by
  refine ⟨fun events hpos => ?_, fun s hw hs => ?_, fun s hw => ?_⟩
  · have hinit : PbInv playback_start_state :=
      ⟨fun h => absurd h (by decide), fun h => absurd h (by decide)⟩
    have hinv := playback_run_inv events playback_start_state hinit
    exact hinv.1 (hinv.2 hpos)
  · simp [playback_step, hw, hs]
  · simp only [playback_step, if_neg (by simp [hw] : ¬s.workerWaiting = true)]
    split
    · next hk => omega
    · rfl

/-- C5 witness: a session that writes 24000 bytes (completing the
pre-buffer) and polls the worker twice has written to I2S TX with the
pre-buffer complete; a waiting worker with streaming ended proceeds at
the next poll; a non-waiting worker with 5 buffered bytes drains all 5
at one poll. -/
theorem C5_playback_prebuffer_gate_witness :
    ((playback_run [.write 24000, .workerPoll, .workerPoll]).prebufferComplete = true
        ∨ (playback_run [.write 24000, .workerPoll, .workerPoll]).streamingActive = false)
      ∧ (playback_step ⟨false, false, 5, true, 0⟩ .workerPoll).workerWaiting = false
      ∧ (playback_step ⟨false, false, 5, false, 0⟩ .workerPoll).i2sWritten = 0 + min 5 4096 :=
  ⟨C5_playback_prebuffer_gate.1 _ (by decide),
   C5_playback_prebuffer_gate.2.1 _ rfl rfl,
   C5_playback_prebuffer_gate.2.2 _ rfl⟩

/-- C7: resampler.  `audio_resample_linear` is a pure function of its
arguments; for `N` nonzero input samples and nonzero rates its output
length is `floor(N * Rout / Rin)`; with equal input and output rates
the output equals the input sample for sample; and every output index
whose (truncated) source index reaches `N - 1` yields the last input
sample `s[N-1]`. -/
theorem C7_resampler :
    (∀ (input : List Int) (rin rout : Nat), input ≠ [] → rin ≠ 0 → rout ≠ 0 →
        (audio_resample_linear input rin rout).length = input.length * rout / rin)
      ∧ (∀ (input : List Int) (r : Nat), r ≠ 0 →
        (∀ s ∈ input, -32768 ≤ s ∧ s ≤ 32767) →
        audio_resample_linear input r r = input)
      ∧ (∀ (input : List Int) (rin rout i : Nat), rin ≠ 0 → rout ≠ 0 →
        i < input.length * rout / rin → input.length - 1 ≤ i * rin / rout →
        (audio_resample_linear input rin rout).getD i 0
          = input.getD (input.length - 1) 0) := by
  refine ⟨fun input rin rout hne hri hro => ?_, fun input r hr hb => ?_,
    fun input rin rout i hri hro hiLen hbd => ?_⟩
  · have hcond : ¬(input.length = 0 ∨ rin = 0 ∨ rout = 0) := by
      rintro (h | h | h)
      exacts [hne (List.length_eq_zero.mp h), hri h, hro h]
    simp only [audio_resample_linear]
    rw [if_neg hcond]
    simp
  · rcases eq_or_ne input [] with rfl | hne
    · simp [audio_resample_linear]
    have hcond : ¬(input.length = 0 ∨ r = 0 ∨ r = 0) := by
      rintro (h | h | h)
      exacts [hne (List.length_eq_zero.mp h), hr h, hr h]
    have hrpos : 0 < r := Nat.pos_of_ne_zero hr
    simp only [audio_resample_linear]
    rw [if_neg hcond, Nat.mul_div_cancel _ hrpos]
    conv_rhs => rw [← getD_range_map input]
    apply List.map_congr_left
    intro i hi
    rw [List.mem_range] at hi
    dsimp only
    rw [Nat.mul_div_cancel i hrpos, Nat.mul_mod_left i r]
    by_cases hb' : input.length - 1 ≤ i
    · rw [if_pos hb']
      have : i = input.length - 1 := by omega
      rw [this]
    · rw [if_neg hb']
      simp only [Nat.cast_zero, zero_mul, Int.zero_tdiv, add_zero]
      rw [List.getD_eq_getElem input 0 hi]
      exact wrap16_eq_self (hb _ (List.getElem_mem hi)).1 (hb _ (List.getElem_mem hi)).2
  · have hN0 : input.length ≠ 0 := by
      intro h
      rw [h] at hiLen
      simp at hiLen
    have hcond : ¬(input.length = 0 ∨ rin = 0 ∨ rout = 0) := by
      rintro (h | h | h)
      exacts [hN0 h, hri h, hro h]
    simp only [audio_resample_linear]
    rw [if_neg hcond]
    rw [List.getD_eq_getElem _ _ (by simpa using hiLen)]
    simp only [List.getElem_map, List.getElem_range]
    rw [if_pos hbd]

/-- C7 witness: the three clauses at concrete inputs — output length
`floor(3 * 2 / 3) = 2` for 3 samples from rate 3 to rate 2; identity at
equal rates 7; and the boundary output index 5 of upsampling `[5, 6]`
threefold, whose source index `5 * 1 / 3 = 1` reaches `N - 1`, yielding
the last sample 6. -/
theorem C7_resampler_witness :
    (audio_resample_linear [1, 2, 3] 3 2).length = 2
      ∧ audio_resample_linear [1000, -2000] 7 7 = [1000, -2000]
      ∧ (audio_resample_linear [5, 6] 1 3).getD 5 0 = 6 :=
  ⟨C7_resampler.1 [1, 2, 3] 3 2 (by decide) (by decide) (by decide),
   C7_resampler.2.1 [1000, -2000] 7 (by decide) (by decide),
   C7_resampler.2.2 [5, 6] 1 3 5 (by decide) (by decide) (by decide) (by decide)⟩

end VoiceAssistant
